import Mathlib

/-!
Verification development for the edward distribution library
(`edward/models/distributions.py`, `edward/util.py`).

Distributions and the composite `Variational` family are shallowly
embedded: parameter tensors become lists of rationals, batches become
lists of rows, and fallible operations return `Except`.  The external
numeric kernel (the `edward.stats` module and TensorFlow's elementary
samplers), which the repository imports but does not define, is passed
in as an explicit `Stats` structure of function parameters; every
theorem quantifies over it.  The stick-breaking simplex construction of
`Multinomial.__init__` is embedded over the reals, where the exact
algebraic statements live.
-/

/-- Error outcomes visible in the code: `IndexError` raised by the
`log_prob_i` bounds checks, and `NotImplementedError` raised by the
abstract `Distribution` base-class defaults. -/
inductive Err where
  | indexError
  | notImplemented
  deriving DecidableEq, Repr

/-- A batch or parameter matrix: a list of rows of rationals. -/
abbrev Mat := List (List ℚ)

/-- Modelled from the spec: the external numeric kernel.  The functions
of `edward.stats` (log-densities, entropies, native samplers) and
TensorFlow's `random_normal` are imported by `distributions.py` but are
not part of the repository source, so they are carried here as abstract
function parameters; every theorem quantifies over this structure.
`multinomial_default_pi` stands for the randomly initialized
stick-breaking default probability matrix (its exact algebraic
construction is embedded separately over the reals as
`multinomialDefaultPi`). -/
structure Stats where
  bernoulli_logpmf : ℚ → ℚ → ℚ
  bernoulli_entropy : List ℚ → ℚ
  bernoulli_rvs : ℚ → Nat → List ℚ
  beta_logpdf : ℚ → ℚ → ℚ → ℚ
  beta_entropy : List ℚ → List ℚ → ℚ
  beta_rvs : ℚ → ℚ → Nat → List ℚ
  dirichlet_logpdf : List ℚ → List ℚ → ℚ
  dirichlet_entropy : Mat → ℚ
  dirichlet_rvs : List ℚ → Nat → Mat
  invgamma_logpdf : ℚ → ℚ → ℚ → ℚ
  invgamma_entropy : List ℚ → List ℚ → ℚ
  invgamma_rvs : ℚ → ℚ → Nat → List ℚ
  multinomial_logpmf : List ℚ → Nat → List ℚ → ℚ
  multinomial_entropy : Nat → Mat → ℚ
  multinomial_rvs : Nat → List ℚ → Nat → Mat
  norm_logpdf : ℚ → ℚ → ℚ → ℚ
  norm_entropy : List ℚ → ℚ
  random_normal : Nat → Nat → Mat
  multinomial_default_pi : Nat → Nat → Mat

/-- The seven concrete distribution classes of `distributions.py`, each
carrying its shape metadata and (current) parameter values.
`bernoulli` holds `p`; `beta`/`invgamma` hold `alpha`, `beta`;
`dirichlet` holds `alpha` as a `num_factors x K` matrix; `multinomial`
holds `pi` as a `num_factors x K` matrix; `normal` holds `loc`,
`scale`; `pointMass` holds `params` (constructed from `num_vars`). -/
inductive Layer where
  | bernoulli (num_factors : Nat) (p : List ℚ)
  | beta (num_factors : Nat) (alpha beta : List ℚ)
  | dirichlet (num_factors K : Nat) (alpha : Mat)
  | invgamma (num_factors : Nat) (alpha beta : List ℚ)
  | multinomial (num_factors K : Nat) (pi : Mat)
  | normal (num_factors : Nat) (loc scale : List ℚ)
  | pointMass (num_vars : Nat) (params : List ℚ)
  deriving DecidableEq, Repr

/-- `self.num_factors` as set by each constructor; `PointMass.__init__`
calls `Distribution.__init__(self, 1)`. -/
def Layer.num_factors : Layer → Nat
  | .bernoulli nf _ => nf
  | .beta nf _ _ => nf
  | .dirichlet nf _ _ => nf
  | .invgamma nf _ _ => nf
  | .multinomial nf _ _ => nf
  | .normal nf _ _ => nf
  | .pointMass _ _ => 1

/-- `self.num_vars` as set by each constructor. -/
def Layer.num_vars : Layer → Nat
  | .bernoulli nf _ => nf
  | .beta nf _ _ => nf
  | .dirichlet nf K _ => K * nf
  | .invgamma nf _ _ => nf
  | .multinomial nf K _ => K * nf
  | .normal nf _ _ => nf
  | .pointMass nv _ => nv

/-- `self.num_params` as set by each constructor. -/
def Layer.num_params : Layer → Nat
  | .bernoulli nf _ => nf
  | .beta nf _ _ => 2 * nf
  | .dirichlet nf K _ => K * nf
  | .invgamma nf _ _ => 2 * nf
  | .multinomial nf K _ => K * nf
  | .normal nf _ _ => 2 * nf
  | .pointMass nv _ => nv

/-- `self.sample_tensor` as set by each constructor: `True` exactly for
`Normal` and `PointMass`. -/
def Layer.sample_tensor : Layer → Bool
  | .normal _ _ _ => true
  | .pointMass _ _ => true
  | _ => false

/-- Whether the class itself defines `reparam` (the check
`'reparam' in layer.__class__.__dict__` used by `Variational`): only
`Normal` overrides `reparam` (and `sample_noise`). -/
def Layer.definesReparam : Layer → Bool
  | .normal _ _ _ => true
  | _ => false

/-- Whether the class itself defines `entropy` (the check
`'entropy' in layer.__class__.__dict__` used by `Variational`): all
concrete classes except `PointMass` override `entropy`. -/
def Layer.definesEntropy : Layer → Bool
  | .pointMass _ _ => false
  | _ => true

/-- The `isinstance(layer, Normal)` check used by `Variational`. -/
def Layer.isNormal : Layer → Bool
  | .normal _ _ _ => true
  | _ => false

/-- Recognizer for the `PointMass` class. -/
def Layer.isPointMass : Layer → Bool
  | .pointMass _ _ => true
  | _ => false

/-- `log_prob_i(i, xs)` of each concrete class: a bounds check
`i >= self.num_factors` raising `IndexError`, then the per-row
log-density of factor `i` only.  Scalar factors read column `i`;
multivariate factors (`Dirichlet`, `Multinomial`) read the K-wide slice
`xs[:, i*K:(i+1)*K]`.  `PointMass` returns the per-row indicator of
`xs[:, i] == params[i]`. -/
def Layer.log_prob_i (S : Stats) : Layer → Nat → Mat → Except Err (List ℚ)
  | .bernoulli nf p, i, xs =>
      if nf ≤ i then .error .indexError
      else .ok (xs.map fun row => S.bernoulli_logpmf (row.getD i 0) (p.getD i 0))
  | .beta nf a b, i, xs =>
      if nf ≤ i then .error .indexError
      else .ok (xs.map fun row => S.beta_logpdf (row.getD i 0) (a.getD i 0) (b.getD i 0))
  | .dirichlet nf K alpha, i, xs =>
      if nf ≤ i then .error .indexError
      else .ok (xs.map fun row =>
        S.dirichlet_logpdf ((row.drop (i * K)).take ((i + 1) * K - i * K)) (alpha.getD i []))
  | .invgamma nf a b, i, xs =>
      if nf ≤ i then .error .indexError
      else .ok (xs.map fun row => S.invgamma_logpdf (row.getD i 0) (a.getD i 0) (b.getD i 0))
  | .multinomial nf K piM, i, xs =>
      if nf ≤ i then .error .indexError
      else .ok (xs.map fun row =>
        S.multinomial_logpmf ((row.drop (i * K)).take ((i + 1) * K - i * K)) 1 (piM.getD i []))
  | .normal nf loc scale, i, xs =>
      if nf ≤ i then .error .indexError
      else .ok (xs.map fun row => S.norm_logpdf (row.getD i 0) (loc.getD i 0) (scale.getD i 0))
  | .pointMass _ params, i, xs =>
      if 1 ≤ i then .error .indexError
      else .ok (xs.map fun row => if row.getD i 0 = params.getD i 0 then (1 : ℚ) else 0)

/-- `entropy()` of each concrete class: the sum-reduced entropy of the
stats module applied to the current parameters.  `PointMass` does not
override `entropy`, so it inherits the base class body
`raise NotImplementedError()`. -/
def Layer.entropy (S : Stats) : Layer → Except Err ℚ
  | .bernoulli _ p => .ok (S.bernoulli_entropy p)
  | .beta _ a b => .ok (S.beta_entropy a b)
  | .dirichlet _ _ alpha => .ok (S.dirichlet_entropy alpha)
  | .invgamma _ a b => .ok (S.invgamma_entropy a b)
  | .multinomial _ _ piM => .ok (S.multinomial_entropy 1 piM)
  | .normal _ _ scale => .ok (S.norm_entropy scale)
  | .pointMass _ _ => .error .notImplemented

/-- `sample_noise(size)`: only `Normal` overrides it, returning
`tf.random_normal((size, num_vars))`; every other class inherits the
base-class body `raise NotImplementedError()`. -/
def Layer.sample_noise (S : Stats) : Layer → Nat → Except Err Mat
  | .normal nf _ _, size => .ok (S.random_normal size nf)
  | _, _ => .error .notImplemented

/-- `reparam(eps)`: only `Normal` overrides it, returning
`loc + eps * scale` elementwise with row-broadcast parameters; every
other class inherits the base-class body `raise NotImplementedError()`. -/
def Layer.reparam : Layer → Mat → Except Err Mat
  | .normal _ loc scale, eps =>
      .ok (eps.map fun row => List.zipWith (fun pr e => pr.1 + e * pr.2) (loc.zip scale) row)
  | _, _ => .error .notImplemented

/-- `sample(size)` of each class.  The native (NumPy/SciPy) samplers
fill the `size x num_vars` result columnwise (`Bernoulli`, `Beta`,
`InvGamma`) or factor-slice-wise (`Dirichlet`, `Multinomial`) from the
stats module's `rvs` draws.  `Normal` does not override `sample`, so it
runs the base-class default `self.reparam(self.sample_noise(size))`.
`PointMass` overrides `sample` to `tf.pack([self.params]*size)`. -/
def Layer.sample (S : Stats) : Layer → Nat → Except Err Mat
  | .bernoulli nf p, size =>
      .ok ((List.range size).map fun s =>
        (List.range nf).map fun d => (S.bernoulli_rvs (p.getD d 0) size).getD s 0)
  | .beta nf a b, size =>
      .ok ((List.range size).map fun s =>
        (List.range nf).map fun d => (S.beta_rvs (a.getD d 0) (b.getD d 0) size).getD s 0)
  | .dirichlet nf _ alpha, size =>
      .ok ((List.range size).map fun s =>
        ((List.range nf).map fun i => (S.dirichlet_rvs (alpha.getD i []) size).getD s []).flatten)
  | .invgamma nf a b, size =>
      .ok ((List.range size).map fun s =>
        (List.range nf).map fun d => (S.invgamma_rvs (a.getD d 0) (b.getD d 0) size).getD s 0)
  | .multinomial nf _ piM, size =>
      .ok ((List.range size).map fun s =>
        ((List.range nf).map fun i => (S.multinomial_rvs 1 (piM.getD i []) size).getD s []).flatten)
  | .normal nf loc scale, size =>
      ((Layer.normal nf loc scale).sample_noise S size).bind (Layer.normal nf loc scale).reparam
  | .pointMass _ params, size => .ok (List.replicate size params)

/-- The `Variational` container: the layer stack plus the five
aggregate fields and the per-layer `sample_tensor` list maintained by
`__init__` and `add`. -/
structure Variational where
  layers : List Layer
  num_factors : Nat
  num_vars : Nat
  num_params : Nat
  is_reparam : Bool
  is_normal : Bool
  is_entropy : Bool
  sample_tensor : List Bool
  deriving DecidableEq, Repr

/-- `Variational.__init__(layers)`: for the empty list the aggregates
are set to the literal defaults; otherwise they are recomputed from the
given layer list. -/
def Variational.init (layers : List Layer) : Variational :=
  if layers = [] then
    { layers := []
      num_factors := 0
      num_vars := 0
      num_params := 0
      is_reparam := true
      is_normal := true
      is_entropy := true
      sample_tensor := [] }
  else
    { layers := layers
      num_factors := (layers.map Layer.num_factors).sum
      num_vars := (layers.map Layer.num_vars).sum
      num_params := (layers.map Layer.num_params).sum
      is_reparam := layers.all Layer.definesReparam
      is_normal := layers.all Layer.isNormal
      is_entropy := layers.all Layer.definesEntropy
      sample_tensor := layers.map Layer.sample_tensor }

/-- `Variational.add(layer)`: appends the layer and updates each
aggregate field incrementally. -/
def Variational.add (v : Variational) (layer : Layer) : Variational :=
  { layers := v.layers ++ [layer]
    num_factors := v.num_factors + layer.num_factors
    num_vars := v.num_vars + layer.num_vars
    num_params := v.num_params + layer.num_params
    is_reparam := v.is_reparam && layer.definesReparam
    is_entropy := v.is_entropy && layer.definesEntropy
    is_normal := v.is_normal && layer.isNormal
    sample_tensor := v.sample_tensor ++ [layer.sample_tensor] }

/-- The column slice `xs[:, start:final]` of a batch. -/
def sliceCols (start final : Nat) (xs : Mat) : Mat :=
  xs.map fun row => (row.drop start).take (final - start)

/-- The loop body of `Variational.log_prob_i`: walk the layers keeping
the running global-to-local index and the running column offsets
`start`/`final`; delegate to the owning layer on its column slice;
raise `IndexError` when the layers are exhausted. -/
def logProbWalk (S : Stats) (xs : Mat) : Nat → Nat → Nat → List Layer → Except Err (List ℚ)
  | _, _, _, [] => .error .indexError
  | i, start, final, l :: ls =>
      let final2 := final + l.num_vars
      if i < l.num_factors then l.log_prob_i S i (sliceCols start final2 xs)
      else logProbWalk S xs (i - l.num_factors) final2 final2 ls

/-- `Variational.log_prob_i(i, xs)`. -/
def Variational.log_prob_i (S : Stats) (v : Variational) (i : Nat) (xs : Mat) :
    Except Err (List ℚ) :=
  logProbWalk S xs i 0 0 v.layers

/-- The loop body of `Variational.entropy`: starting from the constant
`0.0`, add each layer's `entropy()`; a layer lacking `entropy`
propagates its `NotImplementedError`. -/
def entropyWalk (S : Stats) : ℚ → List Layer → Except Err ℚ
  | acc, [] => .ok acc
  | acc, l :: ls =>
      match l.entropy S with
      | .error e => .error e
      | .ok q => entropyWalk S (acc + q) ls

/-- `Variational.entropy()`. -/
def Variational.entropy (S : Stats) (v : Variational) : Except Err ℚ :=
  entropyWalk S 0 v.layers

/-- `Multinomial.__init__(shape, pi)`: `K = 1` is rejected at
construction time with the source's error message; otherwise the layer
is built with the given `pi`, or with the externally initialized
stick-breaking default when `pi` is absent. -/
def Multinomial.init (S : Stats) (shape : Nat × Nat) (pi : Option Mat) :
    Except String Layer :=
  let num_factors := shape.1
  let K := shape.2
  if K = 1 then .error "Multinomial is not supported for K=1. Use Bernoulli."
  else .ok (Layer.multinomial num_factors K
    (match pi with
     | some m => m
     | none => S.multinomial_default_pi num_factors K))

/-- The running-product loop of `edward.util.cumprod`, with `prev` the
accumulated prefix product (initially the ones tensor). -/
def cumprodAux {α : Type} [Mul α] (prev : α) : List α → List α
  | [] => []
  | val :: vals => (prev * val) :: cumprodAux (prev * val) vals

/-- `edward.util.cumprod`: cumulative product along the first
dimension. -/
def cumprod {α : Type} [Mul α] [One α] (xs : List α) : List α :=
  cumprodAux 1 xs

/-- Modelled from the spec: `tf.sigmoid` of the external numeric
kernel, the standard logistic function. -/
noncomputable def sigmoid (z : ℝ) : ℝ :=
  1 / (1 + Real.exp (-z))

/-- One factor row of the default `Multinomial` probability matrix
(`Multinomial.__init__`, `pi is None` branch): the index-dependent
logit offsets `-log(K-1-j)`, the sigmoid transform, the lower/upper
vectors `pil`/`piu`, the per-row cumulative product of `piu`, and the
elementwise product with `pil`. -/
noncomputable def multinomialDefaultPiRow (K : Nat) (u : List ℝ) : List ℝ :=
  let eq := (List.range (K - 1)).map fun j => -Real.log ((K - 1 - j : Nat) : ℝ)
  let x := List.zipWith (fun e uj => sigmoid (e + uj)) eq u
  let pil := x ++ [1]
  let piu := (1 : ℝ) :: x.map (fun t => 1 - t)
  List.zipWith (· * ·) (cumprod piu) pil

/-- The default `Multinomial` probability matrix built row by row from
the unconstrained `num_factors x (K-1)` parameter matrix (the source
packs the per-row cumulative products back into a matrix). -/
noncomputable def multinomialDefaultPi (K : Nat) (rows : List (List ℝ)) : List (List ℝ) :=
  rows.map (multinomialDefaultPiRow K)

/-- A concrete instance of the external kernel, used to evaluate the
embedding at specific inputs. -/
def demoStats : Stats where
  bernoulli_logpmf := fun _ _ => 0
  bernoulli_entropy := fun _ => 0
  bernoulli_rvs := fun _ n => List.replicate n 0
  beta_logpdf := fun _ _ _ => 0
  beta_entropy := fun _ _ => 0
  beta_rvs := fun _ _ n => List.replicate n 0
  dirichlet_logpdf := fun _ _ => 0
  dirichlet_entropy := fun _ => 0
  dirichlet_rvs := fun _ n => List.replicate n []
  invgamma_logpdf := fun _ _ _ => 0
  invgamma_entropy := fun _ _ => 0
  invgamma_rvs := fun _ _ n => List.replicate n 0
  multinomial_logpmf := fun _ _ _ => 0
  multinomial_entropy := fun _ _ => 0
  multinomial_rvs := fun _ _ n => List.replicate n []
  norm_logpdf := fun _ _ _ => 0
  norm_entropy := fun _ => 0
  random_normal := fun n m => List.replicate n (List.replicate m 0)
  multinomial_default_pi := fun n m => List.replicate n (List.replicate m 0)

/-- The aggregate invariant of `Variational`: each cached aggregate
field equals the recomputation from scratch over the current layer
list. -/
def VariationalInv (v : Variational) : Prop :=
  v.num_factors = (v.layers.map Layer.num_factors).sum ∧
  v.num_vars = (v.layers.map Layer.num_vars).sum ∧
  v.num_params = (v.layers.map Layer.num_params).sum ∧
  v.is_reparam = v.layers.all Layer.definesReparam ∧
  v.is_normal = v.layers.all Layer.isNormal ∧
  v.is_entropy = v.layers.all Layer.definesEntropy ∧
  v.sample_tensor = v.layers.map Layer.sample_tensor

/-- C1: the aggregate invariant holds after `Variational.__init__` for
every layer list, and is preserved by every `add(layer)`: the sums
`num_factors`, `num_vars`, `num_params` and the AND-ed flags
`is_reparam`, `is_normal`, `is_entropy` maintained incrementally agree
with recomputing each aggregate from scratch over the layer
sequence. -/
theorem variational_aggregate_invariant :
    (∀ ls : List Layer, VariationalInv (Variational.init ls)) ∧
    ∀ (v : Variational) (l : Layer), VariationalInv v → VariationalInv (v.add l) := by
  constructor
  · intro ls
    by_cases h : ls = []
    · subst h
      simp [Variational.init, VariationalInv]
    · simp [Variational.init, h, VariationalInv]
  · rintro v l ⟨h1, h2, h3, h4, h5, h6, h7⟩
    simp [Variational.add, VariationalInv, h1, h2, h3, h4, h5, h6, h7,
      List.all_append]

/-- Witness for C1: the invariant at a concrete construction followed
by a concrete `add`, the `add` hypothesis discharged by the
construction part of the theorem itself. -/
theorem variational_aggregate_invariant_witness :
    VariationalInv ((Variational.init [Layer.pointMass 1 [0]]).add
      (Layer.normal 2 [0, 0] [1, 1])) :=
  variational_aggregate_invariant.2 _ _
    (variational_aggregate_invariant.1 [Layer.pointMass 1 [0]])

/-- Truncating a list after its head leaves the head unchanged. -/
theorem take_head_getD (l : List ℚ) (d : ℚ) :
    (l.take 2).getD 0 d = (l.take 1).getD 0 d := by
  cases l <;> rfl

/-- C2: for the `Variational` built from a `Normal` layer with 3
factors followed by a `Bernoulli` layer with 2 factors, the aggregates
are `num_factors = 5`, `num_vars = 5`, `is_reparam = false`, and
`log_prob_i(3, xs)` delegates to the Bernoulli layer at local factor
index 0 on the column slice `xs[:, 3:4]` of the joint batch. -/
theorem variational_normal_bernoulli_example (S : Stats) (loc scale p : List ℚ) :
    ((Variational.init []).add (Layer.normal 3 loc scale)
        |>.add (Layer.bernoulli 2 p)).num_factors = 5 ∧
    ((Variational.init []).add (Layer.normal 3 loc scale)
        |>.add (Layer.bernoulli 2 p)).num_vars = 5 ∧
    ((Variational.init []).add (Layer.normal 3 loc scale)
        |>.add (Layer.bernoulli 2 p)).is_reparam = false ∧
    ∀ xs : Mat,
      ((Variational.init []).add (Layer.normal 3 loc scale)
        |>.add (Layer.bernoulli 2 p)).log_prob_i S 3 xs =
      (Layer.bernoulli 2 p).log_prob_i S 0 (sliceCols 3 4 xs) := by
  refine ⟨rfl, rfl, rfl, fun xs => ?_⟩
  simp only [Variational.log_prob_i, Variational.add, Variational.init,
    logProbWalk, Layer.num_vars, Layer.num_factors, Layer.log_prob_i,
    sliceCols, List.map_map]
  norm_num

/-- `Variational.__init__` stores exactly the given layer list. -/
theorem Variational.init_layers (ls : List Layer) : (Variational.init ls).layers = ls := by
  by_cases h : ls = [] <;> simp [Variational.init, h]

/-- `Variational.__init__` sets `num_factors` to the sum over the
layer list in both branches. -/
theorem Variational.init_num_factors (ls : List Layer) :
    (Variational.init ls).num_factors = (ls.map Layer.num_factors).sum := by
  by_cases h : ls = [] <;> simp [Variational.init, h]

/-- Out-of-range bounds check of every concrete `log_prob_i`. -/
theorem layer_log_prob_err (S : Stats) (l : Layer) (i : Nat) (xs : Mat)
    (h : l.num_factors ≤ i) : l.log_prob_i S i xs = .error .indexError := by
  cases l <;> simp only [Layer.log_prob_i, Layer.num_factors] at h ⊢ <;> rw [if_pos h]

/-- In-range case of every concrete `log_prob_i`: an `ok` vector with
one entry per batch row. -/
theorem layer_log_prob_ok (S : Stats) (l : Layer) (i : Nat) (xs : Mat)
    (h : i < l.num_factors) :
    ∃ w, l.log_prob_i S i xs = .ok w ∧ w.length = xs.length := by
  cases l <;> simp only [Layer.log_prob_i, Layer.num_factors] at h ⊢ <;>
    rw [if_neg (by omega)] <;> exact ⟨_, rfl, by simp⟩

/-- The slice of a batch has the same number of rows. -/
theorem sliceCols_length (start final : Nat) (xs : Mat) :
    (sliceCols start final xs).length = xs.length := by
  simp [sliceCols]

/-- The `Variational.log_prob_i` walk raises `IndexError` as soon as
the global index is at least the total factor count of the remaining
layers. -/
theorem logProbWalk_err (S : Stats) (xs : Mat) :
    ∀ (ls : List Layer) (i start final : Nat),
      (ls.map Layer.num_factors).sum ≤ i →
      logProbWalk S xs i start final ls = .error .indexError := by
  intro ls
  induction ls with
  | nil => intro i start final _; rfl
  | cons l ls ih =>
      intro i start final h
      simp only [List.map_cons, List.sum_cons] at h
      simp only [logProbWalk]
      rw [if_neg (by omega)]
      exact ih _ _ _ (by omega)

/-- The `Variational.log_prob_i` walk succeeds on every in-range global
index, returning one entry per batch row. -/
theorem logProbWalk_ok (S : Stats) (xs : Mat) :
    ∀ (ls : List Layer) (i start final : Nat),
      i < (ls.map Layer.num_factors).sum →
      ∃ w, logProbWalk S xs i start final ls = .ok w ∧ w.length = xs.length := by
  intro ls
  induction ls with
  | nil => intro i start final h; simp at h
  | cons l ls ih =>
      intro i start final h
      simp only [List.map_cons, List.sum_cons] at h
      simp only [logProbWalk]
      by_cases hi : i < l.num_factors
      · rw [if_pos hi]
        obtain ⟨w, hw, hlen⟩ :=
          layer_log_prob_ok S l i (sliceCols start (final + l.num_vars) xs) hi
        exact ⟨w, hw, by rw [hlen, sliceCols_length]⟩
      · rw [if_neg hi]
        exact ih _ _ _ (by omega)

/-- C3: for every concrete distribution and for the composite
`Variational`, `log_prob_i(i, xs)` raises `IndexError` whenever
`i >= num_factors` (never clamped), and for every in-range `i` returns
a vector with exactly one entry per row of `xs`. -/
theorem log_prob_i_index_contract (S : Stats) (i : Nat) (xs : Mat) :
    (∀ l : Layer,
      (l.num_factors ≤ i → l.log_prob_i S i xs = .error .indexError) ∧
      (i < l.num_factors → ∃ w, l.log_prob_i S i xs = .ok w ∧ w.length = xs.length)) ∧
    (∀ ls : List Layer,
      ((Variational.init ls).num_factors ≤ i →
        (Variational.init ls).log_prob_i S i xs = .error .indexError) ∧
      (i < (Variational.init ls).num_factors →
        ∃ w, (Variational.init ls).log_prob_i S i xs = .ok w ∧
          w.length = xs.length)) := by
  constructor
  · intro l
    exact ⟨layer_log_prob_err S l i xs, layer_log_prob_ok S l i xs⟩
  · intro ls
    rw [Variational.init_num_factors]
    unfold Variational.log_prob_i
    rw [Variational.init_layers]
    exact ⟨logProbWalk_err S xs ls i 0 0, logProbWalk_ok S xs ls i 0 0⟩

/-- Witness for C3: a Bernoulli layer with one factor and a
one-layer `Variational` both raise `IndexError` at the out-of-range
index 2. -/
theorem log_prob_i_index_contract_witness :
    (Layer.bernoulli 1 [1]).log_prob_i demoStats 2 [[1, 2]] = .error .indexError ∧
    (Variational.init [Layer.bernoulli 1 [1]]).log_prob_i demoStats 2 [[1, 2]] =
      .error .indexError :=
  ⟨((log_prob_i_index_contract demoStats 2 [[1, 2]]).1 (Layer.bernoulli 1 [1])).1
      (by decide),
   ((log_prob_i_index_contract demoStats 2 [[1, 2]]).2 [Layer.bernoulli 1 [1]]).1
      (by decide)⟩

/-- C5: constructing a `Multinomial` with `K = 1` fails at construction
time, for every factor count and every optional `pi`, with the error
message directing the caller to `Bernoulli`; construction with
`K >= 2` does not raise. -/
theorem multinomial_k1_configuration_error (S : Stats) (nf : Nat) (pi : Option Mat) :
    Multinomial.init S (nf, 1) pi =
      .error "Multinomial is not supported for K=1. Use Bernoulli." ∧
    ∀ K : Nat, 2 ≤ K → ∃ l : Layer, Multinomial.init S (nf, K) pi = .ok l := by
  constructor
  · rfl
  · intro K hK
    unfold Multinomial.init
    rw [if_neg (by omega)]
    exact ⟨_, rfl⟩

/-- Witness for C5: at `K = 2` construction succeeds. -/
theorem multinomial_k1_configuration_error_witness :
    ∃ l : Layer, Multinomial.init demoStats (3, 2) none = .ok l :=
  (multinomial_k1_configuration_error demoStats 3 none).2 2 (by decide)

/-- The `Variational.entropy` loop computes the accumulated sum when
every remaining layer's `entropy()` succeeds. -/
theorem entropyWalk_ok (S : Stats) :
    ∀ (ls : List Layer) (qs : List ℚ) (acc : ℚ),
      ls.map (Layer.entropy S) = qs.map Except.ok →
      entropyWalk S acc ls = .ok (acc + qs.sum) := by
  intro ls
  induction ls with
  | nil =>
      intro qs acc h
      have hqs : qs = [] := by
        cases qs with
        | nil => rfl
        | cons q qt => simp at h
      subst hqs
      simp [entropyWalk]
  | cons l ls ih =>
      intro qs acc h
      cases qs with
      | nil => simp at h
      | cons q qt =>
          simp only [List.map_cons, List.cons.injEq] at h
          simp only [entropyWalk, h.1]
          rw [ih qt (acc + q) h.2]
          rw [List.sum_cons]
          ring_nf

/-- C7: for every `Variational` whose layers all have a defined
`entropy()` (with values `qs`), `entropy()` equals the sum of the
per-layer entropies, starting from zero for an empty layer list. -/
theorem variational_entropy_sum (S : Stats) (v : Variational) (qs : List ℚ)
    (h : v.layers.map (Layer.entropy S) = qs.map Except.ok) :
    v.entropy S = .ok qs.sum := by
  unfold Variational.entropy
  rw [entropyWalk_ok S v.layers qs 0 h, zero_add]

/-- Witness for C7: a two-layer `Variational` under the concrete demo
kernel sums its layer entropies. -/
theorem variational_entropy_sum_witness :
    ((Variational.init []).add (Layer.bernoulli 1 [1])
      |>.add (Layer.normal 1 [0] [1])).entropy demoStats = .ok ([(0 : ℚ), 0].sum) :=
  variational_entropy_sum demoStats _ [0, 0] rfl

/-- C8: `PointMass.sample(size)` returns `size` identical rows, each
equal to the current `params` (hence a `size x num_vars` array when
`params` has the constructed length `num_vars`), for every
`size >= 1`. -/
theorem pointmass_sample_replicates (S : Stats) (nv : Nat) (params : List ℚ)
    (size : Nat) (_hsize : 1 ≤ size) (hlen : params.length = nv) :
    ∃ m : Mat, (Layer.pointMass nv params).sample S size = .ok m ∧
      m.length = size ∧ ∀ row ∈ m, row = params ∧ row.length = nv := by
  refine ⟨List.replicate size params, rfl, by simp, ?_⟩
  intro row hrow
  have := List.eq_of_mem_replicate hrow
  exact ⟨this, by rw [this, hlen]⟩

/-- Witness for C8: a concrete two-variable point mass sampled three
times. -/
theorem pointmass_sample_replicates_witness :
    ∃ m : Mat, (Layer.pointMass 2 [5, 7]).sample demoStats 3 = .ok m ∧
      m.length = 3 ∧ ∀ row ∈ m, row = [5, 7] ∧ row.length = 2 :=
  pointmass_sample_replicates demoStats 2 [5, 7] 3 (by decide) (by decide)

/-- C9: on every class that does not override them, `sample_noise` and
`reparam` run the abstract base-class bodies and signal
`NotImplementedError` instead of producing a value; `PointMass` defines
no `entropy`, so `PointMass.entropy()` signals the same way. -/
theorem unsupported_operation_errors (S : Stats) (l : Layer) (size : Nat)
    (eps : Mat) (nv : Nat) (params : List ℚ) :
    (l.definesReparam = false →
      l.sample_noise S size = .error .notImplemented ∧
      l.reparam eps = .error .notImplemented) ∧
    (Layer.pointMass nv params).entropy S = .error .notImplemented := by
  constructor
  · intro h
    cases l <;> simp_all [Layer.definesReparam, Layer.sample_noise, Layer.reparam]
  · rfl

/-- Witness for C9: the Bernoulli class inherits both base-class
bodies. -/
theorem unsupported_operation_errors_witness :
    (Layer.bernoulli 1 [1]).sample_noise demoStats 1 = .error .notImplemented ∧
    (Layer.bernoulli 1 [1]).reparam [] = .error .notImplemented :=
  (unsupported_operation_errors demoStats (Layer.bernoulli 1 [1]) 1 [] 0 []).1 rfl

/-- C10: every `PointMass` has `num_factors = 1` regardless of the
constructed `num_vars` (while `num_vars` and `num_params` equal the
constructor argument); `log_prob_i` rejects every `i >= 1`, and
`log_prob_i(0, xs)` is the per-row indicator comparing only column 0 of
`xs` with `params[0]`. -/
theorem pointmass_single_factor (S : Stats) (nv : Nat) (params : List ℚ)
    (i : Nat) (xs : Mat) :
    (Layer.pointMass nv params).num_factors = 1 ∧
    (Layer.pointMass nv params).num_vars = nv ∧
    (Layer.pointMass nv params).num_params = nv ∧
    (1 ≤ i → (Layer.pointMass nv params).log_prob_i S i xs = .error .indexError) ∧
    (Layer.pointMass nv params).log_prob_i S 0 xs =
      .ok (xs.map fun row => if row.getD 0 0 = params.getD 0 0 then (1 : ℚ) else 0) := by
  refine ⟨rfl, rfl, rfl, fun h => ?_, rfl⟩
  simp only [Layer.log_prob_i]
  rw [if_pos h]

/-- Witness for C10: a point mass over three variables rejects factor
index 1 even though it has three variables. -/
theorem pointmass_single_factor_witness :
    (Layer.pointMass 3 [5, 6, 7]).log_prob_i demoStats 1 [[5, 6, 7]] =
      .error .indexError :=
  (pointmass_single_factor demoStats 3 [5, 6, 7] 1 [[5, 6, 7]]).2.2.2.1 (by decide)

/-- Counterexample to C6: `PointMass` has `sample_tensor = true`, yet
its `sample(size)` is not `reparam(sample_noise(size))` — it overrides
`sample` to pack its parameters directly, while the reparameterization
path inherits the base-class `NotImplementedError`. -/
theorem pointmass_not_reparam_path :
    (Layer.pointMass 1 [0]).sample_tensor = true ∧
    (Layer.pointMass 1 [0]).sample demoStats 1 = .ok [[0]] ∧
    ((Layer.pointMass 1 [0]).sample_noise demoStats 1).bind
      (Layer.pointMass 1 [0]).reparam = .error .notImplemented ∧
    (Layer.pointMass 1 [0]).sample demoStats 1 ≠
      ((Layer.pointMass 1 [0]).sample_noise demoStats 1).bind
        (Layer.pointMass 1 [0]).reparam := by
  exact ⟨rfl, rfl, rfl, fun h => Except.noConfusion h⟩

/-- C6 as amended: exactly `Normal` and `PointMass` have
`sample_tensor = true`; of these only `Normal` samples through the
differentiable path `sample(size) = reparam(sample_noise(size))`, while
`PointMass` overrides `sample` to replicate its parameter vector; every
other concrete class has `sample_tensor = false`, its reparameterization
path signals `NotImplementedError`, and its native `sample` succeeds. -/
theorem sample_path_dispatch (S : Stats) (l : Layer) (size : Nat) :
    (l.sample_tensor = true ↔ (l.isNormal = true ∨ l.isPointMass = true)) ∧
    (l.isNormal = true →
      l.sample S size = (l.sample_noise S size).bind l.reparam) ∧
    (∀ (nv : Nat) (params : List ℚ), l = Layer.pointMass nv params →
      l.sample S size = .ok (List.replicate size params)) ∧
    (l.sample_tensor = false →
      (l.sample_noise S size).bind l.reparam = .error .notImplemented ∧
      ∃ m : Mat, l.sample S size = .ok m) := by
  refine ⟨?_, ?_, ?_, ?_⟩
  · cases l <;> simp [Layer.sample_tensor, Layer.isNormal, Layer.isPointMass]
  · intro h
    cases l <;> simp_all [Layer.isNormal, Layer.sample]
  · rintro nv params rfl
    rfl
  · intro h
    cases l <;> simp_all [Layer.sample_tensor, Layer.sample_noise, Layer.sample,
      Except.bind]

/-- Witness for C6 as amended: the `Normal` class runs the inherited
default `sample(size) = reparam(sample_noise(size))`. -/
theorem sample_path_dispatch_witness :
    (Layer.normal 1 [0] [1]).sample demoStats 2 =
      ((Layer.normal 1 [0] [1]).sample_noise demoStats 2).bind
        (Layer.normal 1 [0] [1]).reparam :=
  (sample_path_dispatch demoStats (Layer.normal 1 [0] [1]) 2).2.1 rfl

/-- A pointwise property of a binary function transfers to every
element of a `zipWith`. -/
theorem zipWith_all {α β γ : Type} (P : γ → Prop) (f : α → β → γ)
    (hf : ∀ a b, P (f a b)) :
    ∀ (l1 : List α) (l2 : List β), ∀ y ∈ List.zipWith f l1 l2, P y := by
  intro l1
  induction l1 with
  | nil => intro l2 y hy; simp at hy
  | cons a t ih =>
      intro l2 y hy
      cases l2 with
      | nil => simp at hy
      | cons b s =>
          simp only [List.zipWith_cons_cons, List.mem_cons] at hy
          rcases hy with rfl | hy
          · exact hf a b
          · exact ih s y hy

/-- The logistic function is nonnegative. -/
theorem sigmoid_nonneg (z : ℝ) : 0 ≤ sigmoid z := by
  unfold sigmoid
  positivity

/-- The logistic function is at most one. -/
theorem sigmoid_le_one (z : ℝ) : sigmoid z ≤ 1 := by
  unfold sigmoid
  rw [div_le_one (by positivity)]
  linarith [Real.exp_pos (-z)]

/-- Telescoping sum of the stick-breaking construction: for any
fraction list `x`, zipping the running products of
`[1, 1-x_0, ..., 1-x_{K-2}]` against `[x_0, ..., x_{K-2}, 1]`
elementwise sums to the initial stick length `p`. -/
theorem stick_sum (x : List ℝ) : ∀ p : ℝ,
    (List.zipWith (· * ·)
      (cumprodAux p ((1 : ℝ) :: x.map (fun t => 1 - t))) (x ++ [1])).sum = p := by
  induction x with
  | nil => intro p; simp [cumprodAux]
  | cons a t ih =>
      intro p
      simp only [List.map_cons, cumprodAux, List.cons_append,
        List.zipWith_cons_cons, List.sum_cons, mul_one]
      have h := ih (p * (1 - a))
      simp only [cumprodAux, mul_one] at h
      rw [h]
      ring

/-- Nonnegativity of the stick-breaking construction: with a
nonnegative initial stick `p` and fractions in `[0, 1]`, every
allocated piece is nonnegative. -/
theorem stick_nonneg (x : List ℝ) : ∀ p : ℝ, 0 ≤ p →
    (∀ a ∈ x, 0 ≤ a ∧ a ≤ 1) →
    ∀ y ∈ List.zipWith (· * ·)
      (cumprodAux p ((1 : ℝ) :: x.map (fun t => 1 - t))) (x ++ [1]), 0 ≤ y := by
  induction x with
  | nil =>
      intro p hp _ y hy
      simp [cumprodAux] at hy
      exact hy ▸ hp
  | cons a t ih =>
      intro p hp hx y hy
      simp only [List.map_cons, cumprodAux, List.cons_append,
        List.zipWith_cons_cons, mul_one, List.mem_cons] at hy
      have ha := hx a (List.mem_cons_self a t)
      rcases hy with rfl | hy
      · exact mul_nonneg hp ha.1
      · have hih := ih (p * (1 - a)) (mul_nonneg hp (by linarith [ha.2]))
          (fun b hb => hx b (List.mem_cons_of_mem a hb))
        simp only [cumprodAux, mul_one] at hih
        exact hih y hy

/-- The stick-breaking row with its lets expanded. -/
theorem multinomialDefaultPiRow_eq (K : Nat) (u : List ℝ) :
    multinomialDefaultPiRow K u =
      List.zipWith (· * ·)
        (cumprodAux 1 ((1 : ℝ) ::
          (List.zipWith (fun e uj => sigmoid (e + uj))
            ((List.range (K - 1)).map fun j => -Real.log ((K - 1 - j : Nat) : ℝ))
            u).map (fun t => 1 - t)))
        ((List.zipWith (fun e uj => sigmoid (e + uj))
            ((List.range (K - 1)).map fun j => -Real.log ((K - 1 - j : Nat) : ℝ))
            u) ++ [1]) := rfl

/-- C4: for every `K >= 2` and every real unconstrained parameter
matrix, the default `Multinomial` probability matrix built by the
stick-breaking construction — `x_j = sigmoid(pi_unconst_j - log(K-1-j))`,
`pil = [x_0, ..., x_{K-2}, 1]`, `piu = [1, 1-x_0, ..., 1-x_{K-2}]`,
`pi = cumprod(piu) * pil` — has every entry nonnegative and every
factor row summing exactly to one. -/
theorem multinomial_default_pi_simplex (K : Nat) (_hK : 2 ≤ K)
    (rows : List (List ℝ)) (_hrows : ∀ u ∈ rows, u.length = K - 1) :
    ∀ row ∈ multinomialDefaultPi K rows,
      (∀ q ∈ row, 0 ≤ q) ∧ row.sum = 1 := by
  intro row hrow
  simp only [multinomialDefaultPi] at hrow
  obtain ⟨u, _hu, rfl⟩ := List.mem_map.mp hrow
  rw [multinomialDefaultPiRow_eq]
  have hxbound := zipWith_all (fun c : ℝ => 0 ≤ c ∧ c ≤ 1)
    (fun e uj => sigmoid (e + uj))
    (fun e uj => ⟨sigmoid_nonneg (e + uj), sigmoid_le_one (e + uj)⟩)
    ((List.range (K - 1)).map fun j => -Real.log ((K - 1 - j : Nat) : ℝ)) u
  exact ⟨fun q hq => stick_nonneg _ 1 zero_le_one hxbound q hq, stick_sum _ 1⟩

/-- Witness for C4: the row built at `K = 2` from the zero
unconstrained matrix is a nonnegative vector summing to one. -/
theorem multinomial_default_pi_simplex_witness :
    (∀ q ∈ multinomialDefaultPiRow 2 [(0 : ℝ)], 0 ≤ q) ∧
      (multinomialDefaultPiRow 2 [(0 : ℝ)]).sum = 1 :=
  multinomial_default_pi_simplex 2 (by norm_num) [[0]] (by simp)
    (multinomialDefaultPiRow 2 [(0 : ℝ)]) (by simp [multinomialDefaultPi])
